import Mathlib

/-!
# Verification of the mcp-grampsweb core

A shallow embedding, in Lean, of the core components of the `mcp-grampsweb`
MCP server (a TypeScript client for the Gramps Web genealogy API), together
with theorems settling the specification claims about:

* the JWT credential manager (`src/auth.ts`): token caching, expiry
  extraction with a 30 s safety buffer, malformed-token fallback, and the
  single-flight refresh guarantee;
* the HTTP transport (`src/client.ts`): 401-retry-once, the error
  taxonomy (`src/utils/errors.ts`), and timeout mapping;
* the lineage traversal engine (`src/tools/analysis.ts`): bounded BFS over
  the person/family graph with a visited set, relationship labelling, and
  branch pruning on fetch failures;
* the tag tool (`src/tools/tags.ts`): idempotent tagging.

External runtime facilities (JSON parsing, base64url decoding, the network)
are modelled as explicit function parameters or oracle inputs; everything
the repository itself computes is translated directly from the source.
-/

namespace GrampsWeb

/-! ## Constants (`src/constants.ts`) -/

/-- `TOKEN_EXPIRY_BUFFER_MS = 30 * 1000` from `constants.ts`
("Token expiration buffer (30 seconds before actual expiry)"). -/
def TOKEN_EXPIRY_BUFFER_MS : Int := 30 * 1000

/-- `DEFAULT_TIMEOUT_MS = 30 * 1000` from `constants.ts`. -/
def DEFAULT_TIMEOUT_MS : Int := 30 * 1000

/-! ## JWT payloads and the expiry extraction (`src/auth.ts`) -/

/-- The decoded JWT payload, `JWTPayload` in `types.ts` (`exp: number`).
`exp` is `none` when the decoded JSON object has no `exp` member
(`parsed.exp` is `undefined`). -/
structure JWTPayload where
  exp : Option Int
deriving Repr, DecidableEq

/-- JavaScript `token.split(".")`: splits a string at every `.` character,
keeping empty segments (`"a..b".split(".") = ["a", "", "b"]`,
`"".split(".") = [""]`). Implemented structurally over the character list so
that it evaluates inside the kernel. -/
def splitDotAux : List Char → List (List Char)
  | [] => [[]]
  | c :: rest =>
    match splitDotAux rest with
    | s :: tail => if c = '.' then [] :: s :: tail else (c :: s) :: tail
    | [] => [[]]

/-- `token.split(".")` on a `String`. -/
def splitDot (s : String) : List String :=
  (splitDotAux s.data).map (fun cs => String.mk cs)

/-- `AuthManager.extractExpiry` (`src/auth.ts`).

`parsePayload` abstracts the external runtime steps
`Buffer.from(payload, "base64url").toString("utf-8")` followed by
`JSON.parse(...) as JWTPayload`; it returns `none` when that pipeline throws
(the `catch` branch of the source). `now` is `Date.now()` in milliseconds.

Source logic: fewer/more than 3 dot-separated parts → default
`now + 1h - buffer`; decoded payload with a truthy `exp` claim →
`exp * 1000 - buffer`; otherwise the same default. The JavaScript truthiness
test `if (parsed.exp)` rejects an `exp` of `0`. -/
def extractExpiry (parsePayload : String → Option JWTPayload) (now : Int)
    (token : String) : Int :=
  match splitDot token with
  | [_header, payload, _sig] =>
    match parsePayload payload with
    | some parsed =>
      match parsed.exp with
      | some e =>
        if e ≠ 0 then e * 1000 - TOKEN_EXPIRY_BUFFER_MS
        else now + 60 * 60 * 1000 - TOKEN_EXPIRY_BUFFER_MS
      | none => now + 60 * 60 * 1000 - TOKEN_EXPIRY_BUFFER_MS
    | none => now + 60 * 60 * 1000 - TOKEN_EXPIRY_BUFFER_MS
  | _ => now + 60 * 60 * 1000 - TOKEN_EXPIRY_BUFFER_MS

/-! ## The credential manager state (`src/auth.ts`) -/

/-- The mutable fields of the `AuthManager` singleton:
`token: string | null`, `tokenExpiry: number`, and whether a
`refreshPromise` is currently stored (non-`null`). -/
structure AuthState where
  token : Option String
  tokenExpiry : Int
  refreshInFlight : Bool
deriving Repr, DecidableEq

/-- The action `getToken()` takes at its first suspension point, read off
from the three branches of the source:

* `cached t` — `this.token && Date.now() < this.tokenExpiry`: the cached
  token is returned immediately, with no I/O;
* `awaitInFlight` — `this.refreshPromise` is set: the caller awaits the
  refresh already in flight (no new network call);
* `startRefresh` — otherwise a fresh `refreshToken()` is started. -/
inductive GetTokenStep where
  | cached (token : String)
  | awaitInFlight
  | startRefresh
deriving Repr, DecidableEq

/-- The branch selection of `AuthManager.getToken` (`src/auth.ts`),
at current time `now` (ms). -/
def getTokenStep (st : AuthState) (now : Int) : GetTokenStep :=
  match st.token with
  | some t =>
    if now < st.tokenExpiry then .cached t
    else if st.refreshInFlight then .awaitInFlight else .startRefresh
  | none => if st.refreshInFlight then .awaitInFlight else .startRefresh

/-- The state update a *successful* `AuthManager.refreshToken` performs once
the token endpoint has answered with `access_token = accessToken`:
`this.token = data.access_token; this.tokenExpiry = this.extractExpiry(...)`. -/
def refreshSuccess (parsePayload : String → Option JWTPayload) (now : Int)
    (accessToken : String) (st : AuthState) : AuthState :=
  { st with
    token := some accessToken
    tokenExpiry := extractExpiry parsePayload now accessToken }

/-- `AuthManager.clearToken` (`src/auth.ts`). -/
def clearToken (st : AuthState) : AuthState :=
  { st with token := none, tokenExpiry := 0 }

/-! ## The single-flight refresh, as an interleaving machine

JavaScript runs `getToken()` callers on a single-threaded event loop: each
call executes *atomically* up to its first `await`.  Reading the source,
that synchronous prefix is exactly: the cached-token check, the
`this.refreshPromise` check, and — in the starting caller —
`this.refreshPromise = this.refreshToken()`, where `refreshToken()` runs
synchronously up to its `fetch` (so the credential-exchange request is
issued inside the same atomic prefix).  The machine below has one `startCall`
transition per caller prefix and one `resolveRefresh` transition for the
completion of the in-flight exchange (which resolves every awaiting caller
with the same token and lets the starter's `finally` clear
`this.refreshPromise`). -/

/-- Where one `getToken()` caller stands. -/
inductive CallerPhase where
  | idle
  | waiting
  | done (token : String)
deriving Repr, DecidableEq

/-- Shared state seen by the `n` concurrent `getToken()` callers.
`cachedValid` is the condition `this.token && Date.now() < this.tokenExpiry`
(constant while no refresh completes), `refreshing` is
`this.refreshPromise !== null`, and `exchangeCount` counts credential
exchanges issued against the token endpoint. -/
structure FlightState (n : Nat) where
  cachedToken : Option String
  cachedValid : Bool
  refreshing : Bool
  exchangeCount : Nat
  callers : Fin n → CallerPhase

/-- The synchronous prefix of one `getToken()` call by caller `i`
(`src/auth.ts`, lines of `getToken`): return the cached token if valid,
else await the in-flight refresh if one exists, else start a refresh
(issuing the exchange request) and await it. -/
def startCall {n : Nat} (st : FlightState n) (i : Fin n) : FlightState n :=
  match st.cachedToken, st.cachedValid with
  | some t, true => { st with callers := Function.update st.callers i (.done t) }
  | _, _ =>
    if st.refreshing then
      { st with callers := Function.update st.callers i .waiting }
    else
      { st with
        refreshing := true
        exchangeCount := st.exchangeCount + 1
        callers := Function.update st.callers i .waiting }

/-- Completion of the in-flight exchange with token `tok`:
`refreshToken` stores the token, the shared promise resolves every awaiting
caller with `tok`, and the starter's `finally` clears `refreshPromise`. -/
def resolveRefresh {n : Nat} (st : FlightState n) (tok : String) : FlightState n :=
  { st with
    cachedToken := some tok
    cachedValid := true
    refreshing := false
    callers := fun i => match st.callers i with
      | .waiting => .done tok
      | other => other }

/-- Initial state for the single-flight scenario: no valid token cached,
no refresh in flight, no exchange issued yet, all callers idle. -/
def flightInit (n : Nat) : FlightState n :=
  { cachedToken := none
    cachedValid := false
    refreshing := false
    exchangeCount := 0
    callers := fun _ => .idle }

/-- A run of the scenario of the single-flight property: the callers listed
in `order` issue `getToken()` (in that order) while no valid token is
cached, then the one in-flight exchange resolves with `tok`. -/
def flightRun (n : Nat) (order : List (Fin n)) (tok : String) : FlightState n :=
  resolveRefresh (order.foldl startCall (flightInit n)) tok

/-! ## The error taxonomy (`src/utils/errors.ts`) -/

/-- The `name` field of the error classes in `src/utils/errors.ts`
(plus the plain JavaScript `Error` thrown by a few tools). -/
inductive ErrName where
  | grampsAPIError
  | authenticationError
  | notFoundError
  | jsError
deriving Repr, DecidableEq

/-- A thrown error, with the observable fields of `GrampsAPIError`:
`message`, optional `statusCode`, optional `endpoint`. -/
structure GrampsError where
  name : ErrName
  message : String
  statusCode : Option Nat
  endpoint : Option String
deriving Repr, DecidableEq

/-- `new GrampsAPIError(message, statusCode?, endpoint?)`. -/
def mkGrampsAPIError (message : String) (statusCode : Option Nat)
    (endpoint : Option String) : GrampsError :=
  ⟨.grampsAPIError, message, statusCode, endpoint⟩

/-- `new AuthenticationError(message)`: `super(message, 401)`. -/
def mkAuthenticationError (message : String) : GrampsError :=
  ⟨.authenticationError, message, some 401, none⟩

/-- `new NotFoundError(entityType, identifier)`:
`super(s, 404)` with message `"{entityType} not found: {identifier}"`. -/
def mkNotFoundError (entityType identifier : String) : GrampsError :=
  ⟨.notFoundError, s!"{entityType} not found: {identifier}", some 404, none⟩

/-- Written from the spec's failure taxonomy (§7), for refinement claims:
an *AuthenticationFailure* is a surfaced failure carrying HTTP status 401
("credential exchange rejected, or retry-after-refresh still rejected").
Both `AuthenticationError` and the `GrampsAPIError` raised for a 401
response satisfy it; no other raised failure does. -/
def isAuthenticationFailure (e : GrampsError) : Bool :=
  e.statusCode = some 401

/-! ## The transport (`src/client.ts`) -/

/-- The parsed body JSON inside `handleErrorResponse`
(`parsed.detail` / `parsed.message`). -/
structure ErrBody where
  detail : Option String
  message : Option String
deriving Repr, DecidableEq

/-- JavaScript string truthiness on an optional field:
`undefined` and `""` are falsy. -/
def truthyStr : Option String → Option String
  | some s => if s = "" then none else some s
  | none => none

/-- The outcome of one `fetch` of the resource URL:
an HTTP response (any status), an abort (the timeout fired), or another
network error carrying a message. -/
inductive FetchOutcome where
  | resp (status : Nat) (statusText : String) (body : String)
  | abortError
  | netError (message : String)
deriving Repr, DecidableEq

/-- `Response.ok`: status in the range 200–299. -/
def respOk (status : Nat) : Bool :=
  200 ≤ status && status < 300

/-- `GrampsClient.handleErrorResponse` (`src/client.ts`): build the message
from `"{status} {statusText}"`, overridden by a truthy `detail` (else
`message`) member of the JSON body when the body is non-empty and parses;
then throw `NotFoundError` on 404 and `GrampsAPIError(message, status,
endpoint)` otherwise.  `parseErr` abstracts `JSON.parse` on the error body
(`none` = throw, swallowed by the inner `catch`). -/
def handleErrorResponse (parseErr : String → Option ErrBody) (status : Nat)
    (statusText : String) (body : String) (endpoint : String) : GrampsError :=
  let message := s!"{status} {statusText}"
  let message :=
    if body = "" then message
    else
      match parseErr body with
      | some parsed =>
        match truthyStr parsed.detail with
        | some d => d
        | none =>
          match truthyStr parsed.message with
          | some m => m
          | none => message
      | none => message
  if status = 404 then mkNotFoundError "Resource" endpoint
  else mkGrampsAPIError message (some status) (some endpoint)

/-- The environment of one `GrampsClient.request` call, making the
external collaborators explicit:

* `getTokenResult` — outcome of the initial `authManager.getToken()`;
* `refreshResult` — outcome of the forced `authManager.refreshToken()`
  taken on a 401 (an `AuthenticationError` on failure);
* `responses` — outcome of the `k`-th `fetch` of the resource URL;
* `parse` — `JSON.parse` composed with the cast to the result type `β`
  (`.error msg` = `JSON.parse` threw with that message);
* `emptyVal` — the `{} as T` value returned for an empty body;
* `parseErr` — `JSON.parse` as used inside `handleErrorResponse`. -/
structure TransportEnv (β : Type) where
  getTokenResult : Except GrampsError String
  refreshResult : Except GrampsError String
  responses : Nat → FetchOutcome
  parse : String → Except String β
  emptyVal : β
  parseErr : String → Option ErrBody
  timeout : Int
  endpoint : String

/-- `GrampsClient.request` (`src/client.ts`), returning the surfaced
result together with the number of `fetch` attempts made against the
resource URL.  Control flow translated from the source:

1. obtain a token (failure propagates, 0 attempts);
2. `fetch`; an `AbortError` maps to
   `GrampsAPIError("Request timeout after {timeout}ms", undefined,
   endpoint)`, other network errors to `GrampsAPIError(msg, undefined,
   endpoint)`;
3. on status 401: clear the cached token, force one `refreshToken()`
   (failure propagates — `AuthenticationError` is a `GrampsAPIError`, so
   the `catch` rethrows it unchanged), retry the same request once; a
   non-2xx retry status goes to `handleErrorResponse`, a 2xx retry returns
   `retryResponse.json()` (no empty-body special case on this path);
4. any other non-2xx goes to `handleErrorResponse`;
5. a 2xx first response returns `{}` for an empty body, else
   `JSON.parse(text)` (a parse throw maps to `GrampsAPIError(msg,
   undefined, endpoint)`). -/
def request {β : Type} (env : TransportEnv β) :
    Except GrampsError β × Nat :=
  match env.getTokenResult with
  | .error e => (.error e, 0)
  | .ok _token =>
    match env.responses 0 with
    | .abortError =>
      (.error (mkGrampsAPIError s!"Request timeout after {env.timeout}ms"
        none (some env.endpoint)), 1)
    | .netError m => (.error (mkGrampsAPIError m none (some env.endpoint)), 1)
    | .resp status statusText body =>
      if status = 401 then
        match env.refreshResult with
        | .error e => (.error e, 1)
        | .ok _newToken =>
          match env.responses 1 with
          | .abortError =>
            (.error (mkGrampsAPIError s!"Request timeout after {env.timeout}ms"
              none (some env.endpoint)), 2)
          | .netError m =>
            (.error (mkGrampsAPIError m none (some env.endpoint)), 2)
          | .resp s2 st2 b2 =>
            if respOk s2 then
              match env.parse b2 with
              | .ok v => (.ok v, 2)
              | .error m =>
                (.error (mkGrampsAPIError m none (some env.endpoint)), 2)
            else
              (.error (handleErrorResponse env.parseErr s2 st2 b2 env.endpoint), 2)
      else if respOk status then
        if body = "" then (.ok env.emptyVal, 1)
        else
          match env.parse body with
          | .ok v => (.ok v, 1)
          | .error m => (.error (mkGrampsAPIError m none (some env.endpoint)), 1)
      else
        (.error (handleErrorResponse env.parseErr status statusText body env.endpoint), 1)

/-! ## The data model used by the traversal (`src/types.ts`) -/

/-- The fields of a `Person` record read by `src/tools/analysis.ts`.
Optional fields mirror the optional members of the TypeScript interface
(`family_list?: string[]`, `parent_family_list?: string[]`). -/
structure Person where
  handle : String
  gramps_id : String
  family_list : Option (List String)
  parent_family_list : Option (List String)
deriving Repr, DecidableEq

/-- `ChildRef` (`src/types.ts`): `ref?: string`. -/
structure ChildRef where
  ref : Option String
deriving Repr, DecidableEq

/-- The fields of a `Family` record read by `src/tools/analysis.ts`. -/
structure Family where
  handle : String
  father_handle : Option String
  mother_handle : Option String
  child_ref_list : Option (List ChildRef)
deriving Repr, DecidableEq

/-- The record store reached through the transport, as the traversal sees
it: `GET /people/{h}` and `GET /families/{h}` either produce a record or
fail (not-found, network error, …).  A handle absent from the association
list models *any* failed fetch — the traversal's `catch` branches treat
all failures alike. -/
structure GrampsDb where
  persons : List (String × Person)
  families : List (String × Family)
deriving Repr, DecidableEq

/-- `GET /people/{h}`: `some` on success, `none` on any fetch failure. -/
def getPerson (db : GrampsDb) (h : String) : Option Person :=
  (db.persons.find? (fun pr => pr.1 = h)).map (·.2)

/-- `GET /families/{h}`: `some` on success, `none` on any fetch failure. -/
def getFamily (db : GrampsDb) (h : String) : Option Family :=
  (db.families.find? (fun pr => pr.1 = h)).map (·.2)

/-- The data-model invariant of the record store (spec §3: a person is
"identified by an immutable handle"): each stored person record carries the
handle it is filed under. -/
def handleConsistent (db : GrampsDb) : Prop :=
  ∀ pr ∈ db.persons, pr.2.handle = pr.1

instance (db : GrampsDb) : Decidable (handleConsistent db) := by
  unfold handleConsistent; infer_instance

/-! ## The lineage traversal (`src/tools/analysis.ts`) -/

/-- One queued BFS tuple `[personHandle, generation, relationship]`. -/
structure QItem where
  handle : String
  gen : Nat
  rel : String
deriving Repr, DecidableEq

/-- One recorded result entry `{ generation, person, relationship }`
(the elements of the `ancestors` / `descendants` arrays). -/
structure LineageEntry where
  generation : Nat
  person : Person
  relationship : String
deriving Repr, DecidableEq

/-- The father label pushed from generation `gen`
(`grampsGetAncestors`): `"Father"`, `"Grandfather"`, then
`"{gen+1}x Great-Grandfather"`. -/
def fatherRel (gen : Nat) : String :=
  if gen = 0 then "Father"
  else if gen = 1 then "Grandfather"
  else s!"{gen + 1}x Great-Grandfather"

/-- The mother label pushed from generation `gen`. -/
def motherRel (gen : Nat) : String :=
  if gen = 0 then "Mother"
  else if gen = 1 then "Grandmother"
  else s!"{gen + 1}x Great-Grandmother"

/-- The child label pushed from generation `gen`
(`grampsGetDescendants`): `"Child"`, `"Grandchild"`, then
`"{gen+1}x Great-Grandchild"`. -/
def childRel (gen : Nat) : String :=
  if gen = 0 then "Child"
  else if gen = 1 then "Grandchild"
  else s!"{gen + 1}x Great-Grandchild"

/-- The queue items `grampsGetAncestors` pushes while expanding `person`
at generation `gen` with visited set `visited` (which already contains the
person's own handle): for each parent family that fetches successfully,
push the father handle and then the mother handle when present (truthy)
and not yet visited.  A family fetch failure contributes nothing
(`catch { /* Family not found, skip */ }`). -/
def ancestorPushes (db : GrampsDb) (visited : Finset String) (gen : Nat)
    (person : Person) : List QItem :=
  match person.parent_family_list with
  | none => []
  | some pfl =>
    pfl.flatMap (fun familyHandle =>
      match getFamily db familyHandle with
      | none => []
      | some family =>
        (match family.father_handle with
         | some f =>
           if f ≠ "" ∧ f ∉ visited then [⟨f, gen + 1, fatherRel gen⟩] else []
         | none => []) ++
        (match family.mother_handle with
         | some m =>
           if m ≠ "" ∧ m ∉ visited then [⟨m, gen + 1, motherRel gen⟩] else []
         | none => []))

/-- The queue items `grampsGetDescendants` pushes while expanding `person`:
for each family of `person.family_list` that fetches successfully and has a
`child_ref_list`, push every truthy, not-yet-visited child reference. -/
def descendantPushes (db : GrampsDb) (visited : Finset String) (gen : Nat)
    (person : Person) : List QItem :=
  match person.family_list with
  | none => []
  | some fl =>
    fl.flatMap (fun familyHandle =>
      match getFamily db familyHandle with
      | none => []
      | some family =>
        match family.child_ref_list with
        | none => []
        | some crl =>
          crl.flatMap (fun childRef =>
            match childRef.ref with
            | some r =>
              if r ≠ "" ∧ r ∉ visited then [⟨r, gen + 1, childRel gen⟩] else []
            | none => []))

/-- The handles sitting in a queue. -/
def queueHandles (q : List QItem) : Finset String :=
  (q.map (·.handle)).toFinset

/-- Every handle that any push can ever produce: the father handles,
mother handles and child references of every family in the store.  Used
only as the finite universe of the termination measure. -/
def relCandidates (db : GrampsDb) : Finset String :=
  ((db.families.map (·.2)).flatMap (fun f =>
    f.father_handle.toList ++ f.mother_handle.toList ++
      (f.child_ref_list.getD []).filterMap (·.ref))).toFinset

theorem getFamily_mem {db : GrampsDb} {fh : String} {family : Family}
    (hfam : getFamily db fh = some family) : family ∈ db.families.map (·.2) := by
  cases hfind : db.families.find? (fun pr => pr.1 = fh) with
  | none => simp [getFamily, hfind] at hfam
  | some pr =>
    have hpr : pr.2 = family := by simpa [getFamily, hfind] using hfam
    exact hpr ▸ List.mem_map.mpr ⟨pr, List.mem_of_find?_eq_some hfind, rfl⟩

theorem ancestorPushes_candidates (db : GrampsDb) (visited : Finset String)
    (gen : Nat) (person : Person) :
    ∀ q ∈ ancestorPushes db visited gen person, q.handle ∈ relCandidates db := by
  intro q hq
  unfold ancestorPushes at hq
  split at hq
  · exact absurd hq (List.not_mem_nil q)
  · simp only [List.mem_flatMap] at hq
    obtain ⟨fh, _hfh, hq⟩ := hq
    split at hq
    · exact absurd hq (List.not_mem_nil q)
    next family hfam =>
      have hfammem := getFamily_mem hfam
      rcases List.mem_append.mp hq with hq | hq
      all_goals {
        split at hq
        next parent hparent =>
          split at hq
          · rw [List.mem_singleton] at hq
            subst hq
            unfold relCandidates
            simp only [List.mem_toFinset, List.mem_flatMap]
            exact ⟨family, hfammem, by simp [hparent]⟩
          · exact absurd hq (List.not_mem_nil q)
        next hnone => exact absurd hq (List.not_mem_nil q)
      }

theorem descendantPushes_candidates (db : GrampsDb) (visited : Finset String)
    (gen : Nat) (person : Person) :
    ∀ q ∈ descendantPushes db visited gen person, q.handle ∈ relCandidates db := by
  intro q hq
  unfold descendantPushes at hq
  split at hq
  · exact absurd hq (List.not_mem_nil q)
  · simp only [List.mem_flatMap] at hq
    obtain ⟨fh, _hfh, hq⟩ := hq
    split at hq
    · exact absurd hq (List.not_mem_nil q)
    next family hfam =>
      have hfammem := getFamily_mem hfam
      split at hq
      · exact absurd hq (List.not_mem_nil q)
      next crl hcrl =>
        simp only [List.mem_flatMap] at hq
        obtain ⟨childRef, hcr, hq⟩ := hq
        split at hq
        next r hr =>
          split at hq
          · rw [List.mem_singleton] at hq
            subst hq
            unfold relCandidates
            simp only [List.mem_toFinset, List.mem_flatMap]
            refine ⟨family, hfammem, ?_⟩
            have hmem : childRef ∈ family.child_ref_list.getD [] := by
              simp [hcrl, hcr]
            simp only [List.mem_append, List.mem_filterMap]
            exact Or.inr ⟨childRef, hmem, by simp [hr]⟩
          · exact absurd hq (List.not_mem_nil q)
        next hnone => exact absurd hq (List.not_mem_nil q)

/-- Termination measure of the BFS loops: the number of still-unvisited
handles that can ever be queued (those currently queued plus every handle a
push can produce), lexicographically before the queue length. -/
def bfsMeasure (cand : Finset String) (q : List QItem) (visited : Finset String) :
    Nat × Nat :=
  (((queueHandles q ∪ cand) \ visited).card, q.length)

theorem bfsMeasure_tail (cand : Finset String) (item : QItem) (rest : List QItem)
    (visited : Finset String) :
    Prod.Lex (· < ·) (· < ·) (bfsMeasure cand rest visited)
      (bfsMeasure cand (item :: rest) visited) := by
  have hsub : (queueHandles rest ∪ cand) \ visited ⊆
      (queueHandles (item :: rest) ∪ cand) \ visited := by
    apply Finset.sdiff_subset_sdiff _ le_rfl
    apply Finset.union_subset_union _ le_rfl
    intro x hx
    simp only [queueHandles, List.mem_toFinset, List.mem_map] at hx ⊢
    obtain ⟨a, ha, rfl⟩ := hx
    exact ⟨a, List.mem_cons_of_mem _ ha, rfl⟩
  have hle := Finset.card_le_card hsub
  rcases lt_or_eq_of_le hle with hlt | heq
  · exact Prod.Lex.left _ _ hlt
  · unfold bfsMeasure
    rw [heq]
    exact Prod.Lex.right _ (Nat.lt_succ_self _)

theorem bfsMeasure_insert (cand : Finset String) (item : QItem)
    (rest q' : List QItem) (visited : Finset String)
    (hvis : item.handle ∉ visited)
    (hq' : ∀ x ∈ queueHandles q', x ∈ queueHandles rest ∪ cand) :
    Prod.Lex (· < ·) (· < ·)
      (bfsMeasure cand q' (insert item.handle visited))
      (bfsMeasure cand (item :: rest) visited) := by
  apply Prod.Lex.left
  have hin : item.handle ∈ (queueHandles (item :: rest) ∪ cand) \ visited := by
    simp only [Finset.mem_sdiff, Finset.mem_union, queueHandles,
      List.mem_toFinset, List.mem_map]
    exact ⟨Or.inl ⟨item, List.mem_cons_self item rest, rfl⟩, hvis⟩
  have hsub : (queueHandles q' ∪ cand) \ insert item.handle visited ⊆
      ((queueHandles (item :: rest) ∪ cand) \ visited).erase item.handle := by
    intro x hx
    simp only [Finset.mem_sdiff, Finset.mem_insert, Finset.mem_erase,
      Finset.mem_union] at hx ⊢
    push_neg at hx
    obtain ⟨hmem, hx1, hx2⟩ := hx
    refine ⟨hx1, ?_, hx2⟩
    rcases hmem with hq | hc
    · rcases Finset.mem_union.mp (hq' x hq) with h1 | h1
      · left
        simp only [queueHandles, List.mem_toFinset, List.mem_map] at h1 ⊢
        obtain ⟨a, ha, rfl⟩ := h1
        exact ⟨a, List.mem_cons_of_mem _ ha, rfl⟩
      · right; exact h1
    · right; exact hc
  calc ((queueHandles q' ∪ cand) \ insert item.handle visited).card
      ≤ (((queueHandles (item :: rest) ∪ cand) \ visited).erase item.handle).card :=
        Finset.card_le_card hsub
    _ < ((queueHandles (item :: rest) ∪ cand) \ visited).card :=
        Finset.card_erase_lt_of_mem hin

theorem queueHandles_append (q1 q2 : List QItem) (cand : Finset String)
    (h2 : ∀ x ∈ q2, x.handle ∈ cand) :
    ∀ x ∈ queueHandles (q1 ++ q2), x ∈ queueHandles q1 ∪ cand := by
  intro x hx
  simp only [queueHandles, List.mem_toFinset, List.mem_map, List.mem_append] at hx
  obtain ⟨a, ha | ha, rfl⟩ := hx
  · refine Finset.mem_union_left _ ?_
    simp only [queueHandles, List.mem_toFinset, List.mem_map]
    exact ⟨a, ha, rfl⟩
  · exact Finset.mem_union_right _ (h2 a ha)

/-- The BFS loop of `grampsGetAncestors` (`src/tools/analysis.ts`):
pop the head tuple; drop it if already visited or beyond the generation
bound; otherwise mark it visited, fetch the person (a failed fetch prunes
the branch: `catch { /* Person not found, skip */ }`), record the entry,
and — while below the bound — push the parents found through the person's
parent families.  Entries are produced in dequeue order, exactly as the
source pushes them onto its `ancestors` array.

Termination does not assume an acyclic family graph: it is proved from the
visited set alone (measure `bfsMeasure`). -/
def ancestorsLoop (db : GrampsDb) (generations : Nat) :
    List QItem → Finset String → List LineageEntry
  | [], _ => []
  | item :: rest, visited =>
    if h : item.handle ∈ visited ∨ item.gen > generations then
      ancestorsLoop db generations rest visited
    else
      match getPerson db item.handle with
      | none => ancestorsLoop db generations rest (insert item.handle visited)
      | some person =>
        ⟨item.gen, person, item.rel⟩ ::
          ancestorsLoop db generations
            (rest ++ (if item.gen < generations then
              ancestorPushes db (insert item.handle visited) item.gen person
              else []))
            (insert item.handle visited)
termination_by q visited => bfsMeasure (relCandidates db) q visited
decreasing_by
  · exact bfsMeasure_tail _ item rest visited
  · exact bfsMeasure_insert _ item rest rest visited
      (fun hx => h (Or.inl hx)) (fun x hx => Finset.mem_union_left _ hx)
  · refine bfsMeasure_insert _ item rest _ visited
      (fun hx => h (Or.inl hx)) (queueHandles_append rest _ _ ?_)
    intro q hq
    split at hq
    · exact ancestorPushes_candidates db _ item.gen person q hq
    · exact absurd hq (List.not_mem_nil q)

/-- The BFS loop of `grampsGetDescendants` (`src/tools/analysis.ts`),
symmetric to `ancestorsLoop` with child references instead of parents. -/
def descendantsLoop (db : GrampsDb) (generations : Nat) :
    List QItem → Finset String → List LineageEntry
  | [], _ => []
  | item :: rest, visited =>
    if h : item.handle ∈ visited ∨ item.gen > generations then
      descendantsLoop db generations rest visited
    else
      match getPerson db item.handle with
      | none => descendantsLoop db generations rest (insert item.handle visited)
      | some person =>
        ⟨item.gen, person, item.rel⟩ ::
          descendantsLoop db generations
            (rest ++ (if item.gen < generations then
              descendantPushes db (insert item.handle visited) item.gen person
              else []))
            (insert item.handle visited)
termination_by q visited => bfsMeasure (relCandidates db) q visited
decreasing_by
  · exact bfsMeasure_tail _ item rest visited
  · exact bfsMeasure_insert _ item rest rest visited
      (fun hx => h (Or.inl hx)) (fun x hx => Finset.mem_union_left _ hx)
  · refine bfsMeasure_insert _ item rest _ visited
      (fun hx => h (Or.inl hx)) (queueHandles_append rest _ _ ?_)
    intro q hq
    split at hq
    · exact descendantPushes_candidates db _ item.gen person q hq
    · exact absurd hq (List.not_mem_nil q)

/-! ## Tool responses and the lineage tools -/

/-- The observable part of the argument each tool hands to
`formatToolResponse`: the `status`, `summary` and `details` fields.  (The
serializer itself lives in `src/utils/response.ts`, outside the analysed
sources; it renders its argument without changing it, so the structured
argument is the faithful observable.  The `data` payload is recoverable
from the entry list the lineage tools compute and is therefore not
duplicated here.) -/
structure ToolResponse where
  status : String
  summary : String
  details : Option String
deriving Repr, DecidableEq

/-- `lineageSchema.parse` (`src/tools/analysis.ts`): `handle` is any
string; `generations` is a *positive* integer of at most 10, defaulting to
3 when absent.  Zod rejects 0 and negative values
(`z.number().int().positive().max(10).default(3)`); the thrown `ZodError`
is modelled as the `.error` case. -/
def lineageSchemaParse (handle : String) (generations : Option Int) :
    Except String (String × Nat) :=
  match generations with
  | none => .ok (handle, 3)
  | some g =>
    if 0 < g then
      if g ≤ 10 then .ok (handle, g.toNat)
      else .error "Number must be less than or equal to 10"
    else .error "Number must be greater than 0"

/-- `grampsGetAncestors` after parameter validation: run the BFS from
`(handle, 0, "Self")` with an empty visited set, then format the result —
the `empty` response when no entry was recorded, the `success` response
otherwise. -/
def grampsGetAncestors (db : GrampsDb) (handle : String) (generations : Nat) :
    List LineageEntry × ToolResponse :=
  let ancestors := ancestorsLoop db generations [⟨handle, 0, "Self"⟩] ∅
  if ancestors.length = 0 then
    (ancestors,
      ⟨"empty", "No ancestors found for this person",
        some "The person may not have parent family links. Check the person's parent_family_list."⟩)
  else
    (ancestors,
      ⟨"success",
        s!"Found {ancestors.length} ancestor(s) across {generations} generation(s)",
        some "Use handles with gramps_get to retrieve full details of any ancestor."⟩)

/-- `grampsGetDescendants` after parameter validation. -/
def grampsGetDescendants (db : GrampsDb) (handle : String) (generations : Nat) :
    List LineageEntry × ToolResponse :=
  let descendants := descendantsLoop db generations [⟨handle, 0, "Self"⟩] ∅
  if descendants.length = 0 then
    (descendants,
      ⟨"empty", "No descendants found for this person",
        some "The person may not have family links. Check the person's family_list."⟩)
  else
    (descendants,
      ⟨"success",
        s!"Found {descendants.length} descendant(s) across {generations} generation(s)",
        some "Use handles with gramps_get to retrieve full details of any descendant."⟩)

/-- The whole `grampsGetAncestors` tool call, schema validation included:
a `ZodError` (`.error`) escapes the tool function; otherwise the traversal
runs and a formatted response is returned. -/
def grampsGetAncestorsTool (db : GrampsDb) (handle : String)
    (generations : Option Int) : Except String (List LineageEntry × ToolResponse) :=
  match lineageSchemaParse handle generations with
  | .error e => .error e
  | .ok (h, g) => .ok (grampsGetAncestors db h g)

/-- The whole `grampsGetDescendants` tool call, schema validation included. -/
def grampsGetDescendantsTool (db : GrampsDb) (handle : String)
    (generations : Option Int) : Except String (List LineageEntry × ToolResponse) :=
  match lineageSchemaParse handle generations with
  | .error e => .error e
  | .ok (h, g) => .ok (grampsGetDescendants db h g)

/-! ## The tag tool (`src/tools/tags.ts`) -/

/-- The slice of an entity `grampsTagEntity` reads and writes:
`GrampsEntity & { tag_list?: string[] }`. -/
structure TagEntity where
  handle : String
  gramps_id : String
  tag_list : Option (List String)
deriving Repr, DecidableEq

/-- `ENTITY_ENDPOINT_MAP` (`src/constants.ts`). -/
def ENTITY_ENDPOINT_MAP : List (String × String) :=
  [("people", "/people/"), ("person", "/people/"),
   ("families", "/families/"), ("family", "/families/"),
   ("events", "/events/"), ("event", "/events/"),
   ("places", "/places/"), ("place", "/places/"),
   ("sources", "/sources/"), ("source", "/sources/"),
   ("citations", "/citations/"), ("citation", "/citations/"),
   ("repositories", "/repositories/"), ("repository", "/repositories/"),
   ("media", "/media/"),
   ("notes", "/notes/"), ("note", "/notes/")]

/-- JavaScript `s.toLowerCase()` (on the ASCII keys used here),
implemented over the character list so it evaluates in the kernel. -/
def jsToLower (s : String) : String :=
  String.mk (s.data.map Char.toLower)

/-- `ENTITY_ENDPOINT_MAP[entity_type.toLowerCase()]`. -/
def lookupEndpoint (entity_type : String) : Option String :=
  (ENTITY_ENDPOINT_MAP.find? (fun pr => pr.1 = jsToLower entity_type)).map (·.2)

/-- `entity_type.replace(/s$/, "")`: strip one trailing `s`.
Implemented over the character list so it evaluates in the kernel. -/
def stripTrailingS (s : String) : String :=
  match s.data.getLast? with
  | some c => if c = 's' then String.mk s.data.dropLast else s
  | none => s

/-- `grampsTagEntity` (`src/tools/tags.ts`), with the `GET` of the entity
supplied as `fetched` (its failure propagates) and the `PUT` requests the
call issues returned alongside the response (the source ignores the `PUT`
response body except for unwrapping).  Translated control flow: validate
the entity type against `ENTITY_ENDPOINT_MAP`; fetch the entity; if
`tag_handle` is already in its `tag_list`, answer `success` with "No
changes were made - tag was already applied." and issue nothing; otherwise
`PUT` the entity with `tag_handle` appended. -/
def grampsTagEntity (entity_type handle tag_handle : String)
    (fetched : Except GrampsError TagEntity) :
    Except GrampsError (ToolResponse × List TagEntity) :=
  match lookupEndpoint entity_type with
  | none =>
    .error ⟨.jsError,
      s!"Invalid entity type \"{entity_type}\". Valid types: people, families, events, places, sources, citations, repositories, media, notes",
      none, none⟩
  | some _endpoint =>
    match fetched with
    | .error e => .error e
    | .ok entity =>
      let existingTags := entity.tag_list.getD []
      if tag_handle ∈ existingTags then
        .ok
          (⟨"success", s!"Tag already applied to {stripTrailingS entity_type}",
            some "No changes were made - tag was already applied."⟩,
           [])
      else
        .ok
          (⟨"success", s!"Tagged {stripTrailingS entity_type} {entity.gramps_id}",
            some s!"Tag added successfully. Entity now has {existingTags.length + 1} tag(s)."⟩,
           [{ entity with tag_list := some (existingTags ++ [tag_handle]) }])

/-! ## Helper lemmas about `extractExpiry` -/

/-- Whenever the token does not split into exactly three segments, or its
middle segment fails to decode, `extractExpiry` yields the one-hour default
(minus the 30 s buffer). -/
theorem extractExpiry_default (parsePayload : String → Option JWTPayload)
    (now : Int) (token : String)
    (h : ∀ hdr payload sig, splitDot token = [hdr, payload, sig] →
      parsePayload payload = none) :
    extractExpiry parsePayload now token
      = now + 60 * 60 * 1000 - TOKEN_EXPIRY_BUFFER_MS := by
  unfold extractExpiry
  split
  next hdr payload sig heq =>
    rw [h hdr payload sig heq]
  next => rfl

/-- On a well-formed token whose payload decodes with a non-zero `exp`
claim `T`, `extractExpiry` yields `T * 1000` minus the 30 s buffer. -/
theorem extractExpiry_exp (parsePayload : String → Option JWTPayload)
    (now : Int) (token hdr payload sig : String) (T : Int)
    (hsplit : splitDot token = [hdr, payload, sig])
    (hparse : parsePayload payload = some ⟨some T⟩)
    (hT : T ≠ 0) :
    extractExpiry parsePayload now token = T * 1000 - TOKEN_EXPIRY_BUFFER_MS := by
  unfold extractExpiry
  rw [hsplit]
  simp only [hparse, if_pos hT]

/-! ## Claim C6 — the 30 s expiry buffer -/

/-- **C6** (confirmed).  Take an auth manager holding a cached token whose
JWT `exp` claim decodes to `T` (epoch seconds, non-zero — the source tests
`parsed.exp` for truthiness), with its expiry stored by a successful
refresh (`tokenExpiry = extractExpiry(...)`) and no refresh in flight.
At any instant strictly before `T − 30 s` (in ms: `now < T*1000 − 30000`)
`getToken()` takes the cached branch and returns the token with no network
I/O; at any instant at or after `T − 30 s` it treats the token as invalid
and starts a refresh. -/
theorem C6_expiry_buffer (parsePayload : String → Option JWTPayload)
    (now0 : Int) (token hdr payload sig : String) (T : Int)
    (hsplit : splitDot token = [hdr, payload, sig])
    (hparse : parsePayload payload = some ⟨some T⟩)
    (hT : T ≠ 0) (now : Int) :
    (now < T * 1000 - 30 * 1000 →
      getTokenStep ⟨some token, extractExpiry parsePayload now0 token, false⟩ now
        = .cached token) ∧
    (T * 1000 - 30 * 1000 ≤ now →
      getTokenStep ⟨some token, extractExpiry parsePayload now0 token, false⟩ now
        = .startRefresh) := by
  have hexp := extractExpiry_exp parsePayload now0 token hdr payload sig T hsplit hparse hT
  have hbuf : TOKEN_EXPIRY_BUFFER_MS = 30 * 1000 := rfl
  constructor
  · intro hlt
    unfold getTokenStep
    simp only [hexp, hbuf]
    rw [if_pos (by omega)]
  · intro hge
    unfold getTokenStep
    simp only [hexp, hbuf]
    rw [if_neg (by omega), if_neg (by simp)]

/-- Witness for C6 at a concrete token: `exp = 1000000`, so the stored
expiry is `999970000 ms`; the cached token is served at `999969999`
(`T − 31 s` is even earlier) and a refresh starts at `999970000`. -/
theorem C6_witness :
    (getTokenStep
      ⟨some "h.p.s",
        extractExpiry (fun s => if s = "p" then some ⟨some 1000000⟩ else none)
          0 "h.p.s", false⟩ 999969999 = .cached "h.p.s") ∧
    (getTokenStep
      ⟨some "h.p.s",
        extractExpiry (fun s => if s = "p" then some ⟨some 1000000⟩ else none)
          0 "h.p.s", false⟩ 999970000 = .startRefresh) := by
  have h := C6_expiry_buffer
    (fun s => if s = "p" then some ⟨some 1000000⟩ else none)
    0 "h.p.s" "h" "p" "s" 1000000 (by decide) (by decide) (by decide)
  exact ⟨(h 999969999).1 (by decide), (h 999970000).2 (by decide)⟩

/-! ## Claim C7 — malformed-token fallback -/

/-- **C7, counterexample.**  The claim states that a malformed token makes
a successful refresh store a cached expiry *equal to now + 1 hour*.  At
`now = 0` with the one-segment token `"abc"` (whose payload decode is
irrelevant), the stored `tokenExpiry` is `3570000 ms = now + 1 h − 30 s`,
which differs from `now + 1 h = 3600000 ms`. -/
theorem C7_counterexample :
    (refreshSuccess (fun _ => none) 0 "abc" ⟨none, 0, false⟩).tokenExpiry
        = 3570000 ∧
    (3570000 : Int) ≠ 0 + 60 * 60 * 1000 := by
  constructor
  · decide
  · decide

/-- **C7** (corrected).  For every access token with fewer than 3
dot-separated segments, or whose middle segment does not decode to JSON, a
successful refresh does not fail and stores a cached expiry of
`now + 1 hour − the 30 s buffer` (the source subtracts
`TOKEN_EXPIRY_BUFFER_MS` from the one-hour default as well).  The update
`refreshSuccess` is a total function — the decode failure is absorbed by
`extractExpiry`'s `catch` — which is the "does not fail" part. -/
theorem C7_fallback_amended (parsePayload : String → Option JWTPayload)
    (now : Int) (token : String) (st : AuthState)
    (h : (splitDot token).length < 3 ∨
      ∃ hdr payload sig, splitDot token = [hdr, payload, sig] ∧
        parsePayload payload = none) :
    (refreshSuccess parsePayload now token st).token = some token ∧
    (refreshSuccess parsePayload now token st).tokenExpiry
      = now + 60 * 60 * 1000 - TOKEN_EXPIRY_BUFFER_MS := by
  refine ⟨rfl, ?_⟩
  show extractExpiry parsePayload now token
    = now + 60 * 60 * 1000 - TOKEN_EXPIRY_BUFFER_MS
  apply extractExpiry_default
  intro hdr payload sig heq
  rcases h with h | ⟨hdr2, payload2, sig2, heq2, hparse2⟩
  · rw [heq] at h; simp at h
  · rw [heq] at heq2
    injection heq2 with h1 h23
    injection h23 with h2 h3
    rw [← h2] at hparse2
    exact hparse2

/-- Witness for C7 at the two-segment token `"x.y"` with an
always-failing payload decoder, at `now = 5`. -/
theorem C7_witness :
    ((splitDot "x.y").length < 3 ∨
      ∃ hdr payload sig, splitDot "x.y" = [hdr, payload, sig] ∧
        (fun (_ : String) => (none : Option JWTPayload)) payload = none) ∧
    (refreshSuccess (fun _ => none) 5 "x.y" ⟨none, 0, false⟩).token = some "x.y" ∧
    (refreshSuccess (fun _ => none) 5 "x.y" ⟨none, 0, false⟩).tokenExpiry
      = 5 + 60 * 60 * 1000 - TOKEN_EXPIRY_BUFFER_MS := by
  refine ⟨Or.inl (by decide), ?_⟩
  exact C7_fallback_amended (fun _ => none) 5 "x.y" ⟨none, 0, false⟩
    (Or.inl (by decide))

/-! ## Claim C2 — single-flight refresh -/

theorem startCall_invalid_refreshing {n : Nat} (st : FlightState n) (i : Fin n)
    (hv : st.cachedValid = false) (hr : st.refreshing = true) :
    startCall st i = { st with callers := Function.update st.callers i .waiting } := by
  unfold startCall
  split
  next t heq hval => rw [hv] at hval; cases hval
  next => rw [hr]; simp

theorem startCall_invalid_fresh {n : Nat} (st : FlightState n) (i : Fin n)
    (hv : st.cachedValid = false) (hr : st.refreshing = false) :
    startCall st i =
      { st with
        refreshing := true
        exchangeCount := st.exchangeCount + 1
        callers := Function.update st.callers i .waiting } := by
  unfold startCall
  split
  next t heq hval => rw [hv] at hval; cases hval
  next => rw [hr]; simp

/-- While no valid token is cached and a refresh is in flight, every
further `getToken()` prefix joins the waiting set and issues no exchange. -/
theorem foldl_startCall_invariant {n : Nat} (rest : List (Fin n)) :
    ∀ st : FlightState n, st.cachedValid = false → st.refreshing = true →
      (rest.foldl startCall st).cachedValid = false ∧
      (rest.foldl startCall st).refreshing = true ∧
      (rest.foldl startCall st).exchangeCount = st.exchangeCount ∧
      ∀ i : Fin n, (st.callers i = .waiting ∨ i ∈ rest) →
        (rest.foldl startCall st).callers i = .waiting := by
  induction rest with
  | nil => intro st hv hr; exact ⟨hv, hr, rfl, fun i hi => by
      rcases hi with hi | hi
      · exact hi
      · exact absurd hi (List.not_mem_nil i)⟩
  | cons k rest ih =>
    intro st hv hr
    rw [List.foldl_cons, startCall_invalid_refreshing st k hv hr]
    obtain ⟨h1, h2, h3, h4⟩ :=
      ih { st with callers := Function.update st.callers k .waiting } hv hr
    refine ⟨h1, h2, h3, fun i hi => h4 i ?_⟩
    rcases hi with hi | hi
    · by_cases hik : i = k
      · subst hik; left; simp
      · left; simpa [Function.update_noteq hik] using hi
    · rcases List.mem_cons.mp hi with hik | hik
      · subst hik; left; simp
      · right; exact hik

/-- **C2** (confirmed).  If `N ≥ 1` concurrent `getToken()` calls are
issued, in any order, while no valid token is cached and no refresh is in
flight, then exactly one credential-exchange request is performed, and
every caller ends with the same token string (the one the single exchange
resolves with).

The machine mirrors the event-loop semantics of the source: each call's
synchronous prefix (cached check, `refreshPromise` check, and — for the
starter — `this.refreshPromise = this.refreshToken()`, which issues the
exchange before the first `await`) runs atomically; `resolveRefresh` is
the completion of the one in-flight exchange, which stores the token and
resolves the shared promise for every awaiting caller. -/
theorem C2_single_flight (n : Nat) (order : List (Fin n)) (tok : String)
    (hne : order ≠ []) (hcov : ∀ i : Fin n, i ∈ order) :
    (flightRun n order tok).exchangeCount = 1 ∧
    ∀ i : Fin n, (flightRun n order tok).callers i = .done tok := by
  match order, hne with
  | j :: rest, _ =>
    have hstep : startCall (flightInit n) j =
        { flightInit n with
          refreshing := true
          exchangeCount := 1
          callers := Function.update (fun _ => CallerPhase.idle) j .waiting } := by
      rw [startCall_invalid_fresh (flightInit n) j rfl rfl]; rfl
    unfold flightRun
    rw [List.foldl_cons, hstep]
    obtain ⟨h1, h2, h3, h4⟩ := foldl_startCall_invariant rest
      { flightInit n with
        refreshing := true
        exchangeCount := 1
        callers := Function.update (fun _ => CallerPhase.idle) j .waiting }
      rfl rfl
    constructor
    · exact h3
    · intro i
      have hwait := h4 i (by
        rcases List.mem_cons.mp (hcov i) with hij | hij
        · subst hij; left; simp
        · right; exact hij)
      simp only [resolveRefresh]
      rw [hwait]

/-- Witness for C2: two callers, order `[0, 1]`, exchange resolves with
`"tokA"`. -/
theorem C2_witness :
    (flightRun 2 [0, 1] "tokA").exchangeCount = 1 ∧
    ∀ i : Fin 2, (flightRun 2 [0, 1] "tokA").callers i = .done "tokA" :=
  C2_single_flight 2 [0, 1] "tokA" (by simp)
    (fun i => by fin_cases i <;> simp)

/-! ## Claim C3 — 401, refresh, retry once -/

/-- The failure raised by `handleErrorResponse` always carries the
response status in `statusCode` (404 included). -/
theorem handleErrorResponse_statusCode (parseErr : String → Option ErrBody)
    (status : Nat) (statusText body endpoint : String) :
    (handleErrorResponse parseErr status statusText body endpoint).statusCode
      = some (if status = 404 then 404 else status) := by
  unfold handleErrorResponse
  by_cases h : status = 404
  · simp [h, mkNotFoundError]
  · simp [h, mkGrampsAPIError]

/-- **C3** (confirmed).  A transport request whose first attempt returns
HTTP 401 forces one token refresh and retries exactly once:

* if the retry also returns 401, the call fails after exactly 2 HTTP
  attempts with a surfaced failure carrying status 401 — an
  *AuthenticationFailure* in the sense of the spec's taxonomy (§7).  (At
  the class level the source raises it through `handleErrorResponse` as a
  `GrampsAPIError` with `statusCode = 401`, not the `AuthenticationError`
  subclass — the theorem records both facts.)  No third attempt is made;
* if the retry returns a 2xx status, the call succeeds after exactly 2
  attempts and returns the parsed body of the second response. -/
theorem C3_retry_once {β : Type} (env : TransportEnv β) (tok0 tok1 : String)
    (st1 : String) (b1 : String)
    (htok : env.getTokenResult = .ok tok0)
    (h0 : env.responses 0 = .resp 401 st1 b1)
    (hr : env.refreshResult = .ok tok1) :
    (∀ st2 b2, env.responses 1 = .resp 401 st2 b2 →
      ∃ e, request env = (.error e, 2) ∧
        isAuthenticationFailure e = true ∧
        e.statusCode = some 401 ∧
        e.name = .grampsAPIError) ∧
    (∀ s2 st2 b2 v, env.responses 1 = .resp s2 st2 b2 → respOk s2 = true →
      env.parse b2 = .ok v → request env = (.ok v, 2)) := by
  constructor
  · intro st2 b2 h1
    refine ⟨handleErrorResponse env.parseErr 401 st2 b2 env.endpoint, ?_, ?_, ?_, ?_⟩
    · unfold request
      rw [htok, h0]
      simp [hr, h1, respOk]
    · simp [isAuthenticationFailure, handleErrorResponse_statusCode]
    · simp [handleErrorResponse_statusCode]
    · unfold handleErrorResponse
      simp [mkGrampsAPIError]
  · intro s2 st2 b2 v h1 hok hparse
    unfold request
    rw [htok, h0]
    simp [hr, h1, hok, hparse]

/-- Witness for C3: a run receiving 401 twice fails with a 401-status
failure after 2 attempts, and a run receiving 401 then 200 succeeds after
2 attempts with the second body. -/
theorem C3_witness :
    (∃ e,
      request (β := String)
        ⟨.ok "tok0", .ok "tok1", fun _ => .resp 401 "Unauthorized" "",
          fun s => .ok s, "", fun _ => none, 30000, "/people/X"⟩ = (.error e, 2) ∧
      isAuthenticationFailure e = true ∧
      e.statusCode = some 401 ∧
      e.name = .grampsAPIError) ∧
    request (β := String)
      ⟨.ok "tok0", .ok "tok1",
        (fun k => if k = 0 then .resp 401 "Unauthorized" "" else .resp 200 "OK" "body2"),
        fun s => .ok s, "", fun _ => none, 30000, "/people/X"⟩
      = (.ok "body2", 2) := by
  constructor
  · exact (C3_retry_once
      ⟨.ok "tok0", .ok "tok1", fun _ => .resp 401 "Unauthorized" "",
        fun s => .ok s, "", fun _ => none, 30000, "/people/X"⟩
      "tok0" "tok1" "Unauthorized" "" rfl rfl rfl).1 "Unauthorized" "" rfl
  · exact (C3_retry_once
      ⟨.ok "tok0", .ok "tok1",
        (fun k => if k = 0 then .resp 401 "Unauthorized" "" else .resp 200 "OK" "body2"),
        fun s => .ok s, "", fun _ => none, 30000, "/people/X"⟩
      "tok0" "tok1" "Unauthorized" "" rfl rfl rfl).2
      200 "OK" "body2" "body2" rfl (by decide) rfl

/-! ## Claim C8 — timeout failures are distinguishable -/

/-- **C8** (confirmed).  A request aborted by its timeout fails with the
timeout failure — a `GrampsAPIError` whose message is
`"Request timeout after {timeout}ms"` and whose `statusCode` is absent —
while every failure raised for a non-2xx HTTP status carries the response
status in `statusCode`; the two are therefore distinguishable (in
particular, never equal). -/
theorem C8_timeout_distinct {β : Type} (env env2 : TransportEnv β)
    (tok tok2 : String) (s : Nat) (st b : String)
    (htok : env.getTokenResult = .ok tok)
    (ha : env.responses 0 = .abortError)
    (htok2 : env2.getTokenResult = .ok tok2)
    (h0 : env2.responses 0 = .resp s st b)
    (hs401 : s ≠ 401) (hsok : respOk s = false) :
    ∃ e1 e2,
      request env = (.error e1, 1) ∧
      request env2 = (.error e2, 1) ∧
      e1.statusCode = none ∧
      e1.message = s!"Request timeout after {env.timeout}ms" ∧
      e2.statusCode.isSome = true ∧
      e1 ≠ e2 := by
  refine ⟨mkGrampsAPIError s!"Request timeout after {env.timeout}ms" none (some env.endpoint),
    handleErrorResponse env2.parseErr s st b env2.endpoint, ?_, ?_, rfl, rfl, ?_, ?_⟩
  · unfold request
    rw [htok, ha]
  · unfold request
    rw [htok2, h0]
    simp [if_neg hs401, hsok]
  · rw [handleErrorResponse_statusCode]
    rfl
  · intro hcontra
    have h1 : (mkGrampsAPIError s!"Request timeout after {env.timeout}ms"
        none (some env.endpoint)).statusCode = none := rfl
    have h2 : (handleErrorResponse env2.parseErr s st b env2.endpoint).statusCode
        = some (if s = 404 then 404 else s) := handleErrorResponse_statusCode _ _ _ _ _
    rw [hcontra, h2] at h1
    cases h1

/-- Witness for C8: a timed-out request against `/people/X` versus a 500
response on the same endpoint. -/
theorem C8_witness :
    ∃ e1 e2,
      request (β := String)
        ⟨.ok "tok", .ok "tok", fun _ => .abortError,
          fun s => .ok s, "", fun _ => none, 30000, "/people/X"⟩ = (.error e1, 1) ∧
      request (β := String)
        ⟨.ok "tok", .ok "tok", fun _ => .resp 500 "Internal Server Error" "",
          fun s => .ok s, "", fun _ => none, 30000, "/people/X"⟩ = (.error e2, 1) ∧
      e1.statusCode = none ∧
      e1.message = "Request timeout after 30000ms" ∧
      e2.statusCode.isSome = true ∧
      e1 ≠ e2 :=
  C8_timeout_distinct
    ⟨.ok "tok", .ok "tok", fun _ => .abortError,
      fun s => .ok s, "", fun _ => none, 30000, "/people/X"⟩
    ⟨.ok "tok", .ok "tok", fun _ => .resp 500 "Internal Server Error" "",
      fun s => .ok s, "", fun _ => none, 30000, "/people/X"⟩
    "tok" "tok" 500 "Internal Server Error" "" rfl rfl rfl rfl
    (by decide) (by decide)

/-! ## Claim C10 — tagging is idempotent, no redundant PUT -/

/-- **C10** (confirmed).  For every entity whose `tag_list` already
contains the given tag handle, `grampsTagEntity` issues no `PUT` request
(the issued-requests list is empty, so the stored entity is untouched) and
returns a success response whose details say
"No changes were made - tag was already applied.". -/
theorem C10_no_redundant_put (entity_type handle tag_handle : String)
    (entity : TagEntity) (endpoint : String)
    (hep : lookupEndpoint entity_type = some endpoint)
    (htag : tag_handle ∈ entity.tag_list.getD []) :
    grampsTagEntity entity_type handle tag_handle (.ok entity) =
      .ok (⟨"success", s!"Tag already applied to {stripTrailingS entity_type}",
        some "No changes were made - tag was already applied."⟩, []) := by
  unfold grampsTagEntity
  rw [hep]
  simp [htag]

/-- Witness for C10: tagging person `H1`, which already carries tag `T1`.
(`"people"` has no trailing `s`, so the source's `replace(/s$/, "")`
leaves it unchanged in the summary.) -/
theorem C10_witness :
    grampsTagEntity "people" "H1" "T1" (.ok ⟨"H1", "I0001", some ["T1"]⟩) =
      .ok (⟨"success", "Tag already applied to people",
        some "No changes were made - tag was already applied."⟩, []) :=
  C10_no_redundant_put "people" "H1" "T1" ⟨"H1", "I0001", some ["T1"]⟩
    "/people/" (by decide) (by decide)

/-! ## Helper lemmas about the traversal -/

/-- Under the handle-consistency invariant, a fetched person carries the
handle it was fetched by. -/
theorem getPerson_handle {db : GrampsDb} {h : String} {p : Person}
    (hdb : handleConsistent db) (hp : getPerson db h = some p) : p.handle = h := by
  cases hfind : db.persons.find? (fun pr => pr.1 = h) with
  | none => rw [getPerson, hfind] at hp; cases hp
  | some pr =>
    rw [getPerson, hfind] at hp
    have h1 : pr.2 = p := by simpa using hp
    have h2 : pr.1 = h := by simpa using List.find?_some hfind
    rw [← h1, ← h2]
    exact hdb pr (List.mem_of_find?_eq_some hfind)

/-- The traversal records each person at most once: the entries produced
by `ancestorsLoop` carry pairwise-distinct person handles, none of which
was already visited on entry. -/
theorem ancestorsLoop_fresh (db : GrampsDb) (generations : Nat)
    (hdb : handleConsistent db) (q : List QItem) (visited : Finset String) :
    (∀ e ∈ ancestorsLoop db generations q visited, e.person.handle ∉ visited) ∧
    (ancestorsLoop db generations q visited).Pairwise
      (fun e1 e2 => e1.person.handle ≠ e2.person.handle) := by
  induction q, visited using ancestorsLoop.induct db generations with
  | case1 visited =>
    rw [ancestorsLoop]
    exact ⟨by simp, List.Pairwise.nil⟩
  | case2 item rest visited hcond ih =>
    rw [ancestorsLoop, dif_pos hcond]
    exact ih
  | case3 item rest visited hcond hnone ih =>
    rw [ancestorsLoop, dif_neg hcond]
    rw [hnone]
    obtain ⟨ih1, ih2⟩ := ih
    refine ⟨fun e he hv => ih1 e he (Finset.mem_insert_of_mem hv), ih2⟩
  | case4 item rest visited hcond person hperson ih =>
    rw [ancestorsLoop, dif_neg hcond]
    rw [hperson]
    obtain ⟨ih1, ih2⟩ := ih
    have hhandle : person.handle = item.handle := getPerson_handle hdb hperson
    have hitem : item.handle ∉ visited := fun hx => hcond (Or.inl hx)
    constructor
    · intro e he
      rcases List.mem_cons.mp he with rfl | he
      · simpa [hhandle] using hitem
      · exact fun hv => ih1 e he (Finset.mem_insert_of_mem hv)
    · refine List.Pairwise.cons ?_ ih2
      intro e he
      have := ih1 e he
      simp only [Finset.mem_insert, not_or] at this
      simp only [hhandle]
      exact fun hcontra => this.1 hcontra.symm

/-- The descendant analogue of `ancestorsLoop_fresh`. -/
theorem descendantsLoop_fresh (db : GrampsDb) (generations : Nat)
    (hdb : handleConsistent db) (q : List QItem) (visited : Finset String) :
    (∀ e ∈ descendantsLoop db generations q visited, e.person.handle ∉ visited) ∧
    (descendantsLoop db generations q visited).Pairwise
      (fun e1 e2 => e1.person.handle ≠ e2.person.handle) := by
  induction q, visited using descendantsLoop.induct db generations with
  | case1 visited =>
    rw [descendantsLoop]
    exact ⟨by simp, List.Pairwise.nil⟩
  | case2 item rest visited hcond ih =>
    rw [descendantsLoop, dif_pos hcond]
    exact ih
  | case3 item rest visited hcond hnone ih =>
    rw [descendantsLoop, dif_neg hcond]
    rw [hnone]
    obtain ⟨ih1, ih2⟩ := ih
    refine ⟨fun e he hv => ih1 e he (Finset.mem_insert_of_mem hv), ih2⟩
  | case4 item rest visited hcond person hperson ih =>
    rw [descendantsLoop, dif_neg hcond]
    rw [hperson]
    obtain ⟨ih1, ih2⟩ := ih
    have hhandle : person.handle = item.handle := getPerson_handle hdb hperson
    have hitem : item.handle ∉ visited := fun hx => hcond (Or.inl hx)
    constructor
    · intro e he
      rcases List.mem_cons.mp he with rfl | he
      · simpa [hhandle] using hitem
      · exact fun hv => ih1 e he (Finset.mem_insert_of_mem hv)
    · refine List.Pairwise.cons ?_ ih2
      intro e he
      have := ih1 e he
      simp only [Finset.mem_insert, not_or] at this
      simp only [hhandle]
      exact fun hcontra => this.1 hcontra.symm

/-- The entry list of the ancestors tool is the bare BFS output. -/
theorem grampsGetAncestors_entries (db : GrampsDb) (h : String) (g : Nat) :
    (grampsGetAncestors db h g).1 = ancestorsLoop db g [⟨h, 0, "Self"⟩] ∅ := by
  by_cases hlen : (ancestorsLoop db g [⟨h, 0, "Self"⟩] ∅).length = 0
  · simp [grampsGetAncestors, hlen]
  · simp [grampsGetAncestors, hlen]

/-- The entry list of the descendants tool is the bare BFS output. -/
theorem grampsGetDescendants_entries (db : GrampsDb) (h : String) (g : Nat) :
    (grampsGetDescendants db h g).1 = descendantsLoop db g [⟨h, 0, "Self"⟩] ∅ := by
  by_cases hlen : (descendantsLoop db g [⟨h, 0, "Self"⟩] ∅).length = 0
  · simp [grampsGetDescendants, hlen]
  · simp [grampsGetDescendants, hlen]

/-- Unfolding the first BFS step at a resolvable origin. -/
theorem ancestorsLoop_start (db : GrampsDb) (generations : Nat) (H : String)
    (pA : Person) (hp : getPerson db H = some pA) :
    ancestorsLoop db generations [⟨H, 0, "Self"⟩] ∅
      = ⟨0, pA, "Self"⟩ ::
        ancestorsLoop db generations
          ([] ++ (if 0 < generations then
            ancestorPushes db (insert H ∅) 0 pA else []))
          (insert H ∅) := by
  rw [ancestorsLoop]
  rw [dif_neg (by simp)]
  simp only [hp]

/-- A BFS from an unresolvable origin produces no entries. -/
theorem ancestorsLoop_start_none (db : GrampsDb) (generations : Nat) (H : String)
    (hp : getPerson db H = none) :
    ancestorsLoop db generations [⟨H, 0, "Self"⟩] ∅ = [] := by
  rw [ancestorsLoop]
  rw [dif_neg (by simp)]
  simp only [hp]
  rw [ancestorsLoop]

/-- The descendant analogue of `ancestorsLoop_start_none`. -/
theorem descendantsLoop_start_none (db : GrampsDb) (generations : Nat) (H : String)
    (hp : getPerson db H = none) :
    descendantsLoop db generations [⟨H, 0, "Self"⟩] ∅ = [] := by
  rw [descendantsLoop]
  rw [dif_neg (by simp)]
  simp only [hp]
  rw [descendantsLoop]

/-! ## Claim C1 — `maxGenerations = 0` -/

/-- A one-person store used by the C1 counterexample. -/
def dbC1 : GrampsDb := ⟨[("H1", ⟨"H1", "I0001", none, none⟩)], []⟩

/-- **C1, counterexample.**  The claim states that the ancestor traversal
with `maxGenerations = 0` returns a result containing only the origin and
does not fail.  On a store that resolves the origin handle `H1`, the call
with `generations = 0` instead fails: `lineageSchema` declares
`generations` as `z.number().int().positive().max(10)`, and Zod's
`positive()` rejects `0`, so `lineageSchema.parse` throws before any
traversal happens. -/
theorem C1_counterexample :
    grampsGetAncestorsTool dbC1 "H1" (some 0)
      = .error "Number must be greater than 0" := rfl

/-- **C1** (corrected).  For every store and starting handle `H` (resolving
to a person `pA`), calling the ancestor tool with `maxGenerations = 0` is
rejected by input validation (`generations` must be a positive integer), so
the call fails with a validation error instead of returning a result.  The
underlying BFS loop, run with bound 0, does return only the origin `H` at
generation 0 labelled `"Self"` — but it is unreachable through the tool. -/
theorem C1_amended (db : GrampsDb) (H : String) (pA : Person)
    (hp : getPerson db H = some pA) :
    grampsGetAncestorsTool db H (some 0)
      = .error "Number must be greater than 0" ∧
    ancestorsLoop db 0 [⟨H, 0, "Self"⟩] ∅ = [⟨0, pA, "Self"⟩] := by
  refine ⟨rfl, ?_⟩
  rw [ancestorsLoop_start db 0 H pA hp]
  rw [if_neg (by simp)]
  rw [List.append_nil]
  rw [ancestorsLoop]

/-- Witness for C1 on the concrete one-person store. -/
theorem C1_witness :
    grampsGetAncestorsTool dbC1 "H1" (some 0)
      = .error "Number must be greater than 0" ∧
    ancestorsLoop dbC1 0 [⟨"H1", 0, "Self"⟩] ∅
      = [⟨0, ⟨"H1", "I0001", none, none⟩, "Self"⟩] :=
  C1_amended dbC1 "H1" ⟨"H1", "I0001", none, none⟩ (by decide)

/-! ## Claim C9 — fetch failures prune branches, never abort -/

/-- **C9** (confirmed).  In the embedding every failed per-node fetch
(not-found or any other error) is a `none` lookup, which the BFS loop
skips, pruning exactly that branch while the loop continues — the loops
and the tools are *total functions* on every store, so no fetch failure
can abort the overall operation.  Concretely: (i) for every store and
every schema-valid generation bound the tools return a response (`.ok`),
whatever fetches fail; and (ii) a starting handle that cannot be resolved
yields the `empty`-status response with zero entries — an empty result,
not an error. -/
theorem C9_branch_pruning (db : GrampsDb) (H : String) (g : Int) (gens : Nat)
    (hg : 0 < g) (hg10 : g ≤ 10) (hnone : getPerson db H = none) :
    grampsGetAncestorsTool db H (some g) = .ok (grampsGetAncestors db H g.toNat) ∧
    grampsGetDescendantsTool db H (some g) = .ok (grampsGetDescendants db H g.toNat) ∧
    grampsGetAncestors db H gens
      = ([], ⟨"empty", "No ancestors found for this person",
          some "The person may not have parent family links. Check the person's parent_family_list."⟩) ∧
    grampsGetDescendants db H gens
      = ([], ⟨"empty", "No descendants found for this person",
          some "The person may not have family links. Check the person's family_list."⟩) := by
  refine ⟨?_, ?_, ?_, ?_⟩
  · simp [grampsGetAncestorsTool, lineageSchemaParse, hg, hg10]
  · simp [grampsGetDescendantsTool, lineageSchemaParse, hg, hg10]
  · have hl := ancestorsLoop_start_none db gens H hnone
    simp [grampsGetAncestors, hl]
  · have hl := descendantsLoop_start_none db gens H hnone
    simp [grampsGetDescendants, hl]

/-- Witness for C9: the empty store with the unresolvable handle
`"ghost"` and bound 3. -/
theorem C9_witness :
    grampsGetAncestorsTool ⟨[], []⟩ "ghost" (some 3)
      = .ok (grampsGetAncestors ⟨[], []⟩ "ghost" 3) ∧
    grampsGetDescendantsTool ⟨[], []⟩ "ghost" (some 3)
      = .ok (grampsGetDescendants ⟨[], []⟩ "ghost" 3) ∧
    grampsGetAncestors ⟨[], []⟩ "ghost" 3
      = ([], ⟨"empty", "No ancestors found for this person",
          some "The person may not have parent family links. Check the person's parent_family_list."⟩) ∧
    grampsGetDescendants ⟨[], []⟩ "ghost" 3
      = ([], ⟨"empty", "No descendants found for this person",
          some "The person may not have family links. Check the person's family_list."⟩) :=
  C9_branch_pruning ⟨[], []⟩ "ghost" 3 3 (by decide) (by decide) (by decide)

/-! ## Claim C4 — termination on cyclic graphs, origin recorded once -/

theorem filter_none {α : Type} (p : α → Bool) :
    ∀ l : List α, (∀ a ∈ l, p a = false) → l.filter p = []
  | [], _ => rfl
  | a :: l, h => by
    rw [List.filter_cons, if_neg (by simp [h a (List.mem_cons_self a l)]),
      filter_none p l (fun x hx => h x (List.mem_cons_of_mem a hx))]

/-- **C4** (confirmed).  For *every* family graph — cyclic ones included,
e.g. a person recorded as a parent in one of their own parent families —
the ancestor traversal terminates (`ancestorsLoop` is a total function,
defined by well-founded recursion on the visited set, with no acyclicity
assumption), and the origin `A` appears in the returned entries exactly
once, at generation 0, labelled `"Self"`: filtering the result by `A`'s
handle yields precisely the origin entry.  Hypotheses: the origin resolves
to a person record, and the store files each person under its own handle
(the data-model invariant). -/
theorem C4_cycle_termination (db : GrampsDb) (H : String) (pA : Person)
    (gens : Nat) (hdb : handleConsistent db) (hp : getPerson db H = some pA) :
    (grampsGetAncestors db H gens).1.filter (fun e => e.person.handle = H)
      = [⟨0, pA, "Self"⟩] := by
  have hA : pA.handle = H := getPerson_handle hdb hp
  rw [grampsGetAncestors_entries, ancestorsLoop_start db gens H pA hp]
  rw [List.filter_cons]
  have hhead : (decide ((⟨0, pA, "Self"⟩ : LineageEntry).person.handle = H)) = true := by
    simp [hA]
  rw [if_pos hhead]
  have hfresh := (ancestorsLoop_fresh db gens hdb
    ([] ++ (if 0 < gens then ancestorPushes db (insert H ∅) 0 pA else []))
    (insert H ∅)).1
  have hnil : (ancestorsLoop db gens
      ([] ++ (if 0 < gens then ancestorPushes db (insert H ∅) 0 pA else []))
      (insert H ∅)).filter (fun e => e.person.handle = H) = [] := by
    apply filter_none
    intro e he
    have := hfresh e he
    simp only [Finset.mem_insert, not_or] at this
    simp [this.1]
  rw [hnil]

/-- The cyclic store of the C4 witness: person `A`'s parent family `F`
lists `A` itself as the father, so `A` is recorded as its own ancestor. -/
def dbC4 : GrampsDb :=
  ⟨[("A", ⟨"A", "I0", none, some ["F"]⟩)],
   [("F", ⟨"F", some "A", none, none⟩)]⟩

/-- Witness for C4: on the cyclic store, `ancestorsOf(A, 5)` returns `A`
exactly once, at generation 0. -/
theorem C4_witness :
    (grampsGetAncestors dbC4 "A" 5).1.filter (fun e => e.person.handle = "A")
      = [⟨0, ⟨"A", "I0", none, some ["F"]⟩, "Self"⟩] :=
  C4_cycle_termination dbC4 "A" ⟨"A", "I0", none, some ["F"]⟩ 5
    (by decide) (by decide)

/-! ## Claim C5 — counted "great" labels at distance ≥ 3 -/

/-- The label invariant the ancestor queue maintains: any queued item at
generation ≥ 3 carries a counted great-grand label with *its own*
generation number. -/
def ancLabelOk (g : Nat) (r : String) : Prop :=
  3 ≤ g → r = s!"{g}x Great-Grandfather" ∨ r = s!"{g}x Great-Grandmother"

/-- The descendant analogue of `ancLabelOk`. -/
def descLabelOk (g : Nat) (r : String) : Prop :=
  3 ≤ g → r = s!"{g}x Great-Grandchild"

theorem ancestorPushes_labels (db : GrampsDb) (visited : Finset String)
    (gen : Nat) (person : Person) :
    ∀ x ∈ ancestorPushes db visited gen person,
      x.gen = gen + 1 ∧ (x.rel = fatherRel gen ∨ x.rel = motherRel gen) := by
  intro x hx
  unfold ancestorPushes at hx
  split at hx
  · exact absurd hx (List.not_mem_nil x)
  · simp only [List.mem_flatMap] at hx
    obtain ⟨fh, _, hx⟩ := hx
    split at hx
    · exact absurd hx (List.not_mem_nil x)
    next family hfam =>
      rcases List.mem_append.mp hx with hx | hx
      all_goals {
        split at hx
        next parent hparent =>
          split at hx
          · rw [List.mem_singleton] at hx
            subst hx
            exact ⟨rfl, by simp⟩
          · exact absurd hx (List.not_mem_nil x)
        next => exact absurd hx (List.not_mem_nil x)
      }

theorem descendantPushes_labels (db : GrampsDb) (visited : Finset String)
    (gen : Nat) (person : Person) :
    ∀ x ∈ descendantPushes db visited gen person,
      x.gen = gen + 1 ∧ x.rel = childRel gen := by
  intro x hx
  unfold descendantPushes at hx
  split at hx
  · exact absurd hx (List.not_mem_nil x)
  · simp only [List.mem_flatMap] at hx
    obtain ⟨fh, _, hx⟩ := hx
    split at hx
    · exact absurd hx (List.not_mem_nil x)
    next family hfam =>
      split at hx
      · exact absurd hx (List.not_mem_nil x)
      next crl hcrl =>
        simp only [List.mem_flatMap] at hx
        obtain ⟨childRef, _, hx⟩ := hx
        split at hx
        next r hr =>
          split at hx
          · rw [List.mem_singleton] at hx
            subst hx
            exact ⟨rfl, rfl⟩
          · exact absurd hx (List.not_mem_nil x)
        next => exact absurd hx (List.not_mem_nil x)

theorem fatherRel_labelOk (gen : Nat) : ancLabelOk (gen + 1) (fatherRel gen) := by
  intro h3
  have h2 : ¬gen = 0 := by omega
  have h1 : ¬gen = 1 := by omega
  left
  unfold fatherRel
  rw [if_neg h2, if_neg h1]

theorem motherRel_labelOk (gen : Nat) : ancLabelOk (gen + 1) (motherRel gen) := by
  intro h3
  have h2 : ¬gen = 0 := by omega
  have h1 : ¬gen = 1 := by omega
  right
  unfold motherRel
  rw [if_neg h2, if_neg h1]

theorem childRel_labelOk (gen : Nat) : descLabelOk (gen + 1) (childRel gen) := by
  intro h3
  have h2 : ¬gen = 0 := by omega
  have h1 : ¬gen = 1 := by omega
  unfold childRel
  rw [if_neg h2, if_neg h1]

theorem ancestorsLoop_labels (db : GrampsDb) (generations : Nat) :
    ∀ (q : List QItem) (visited : Finset String),
      (∀ x ∈ q, ancLabelOk x.gen x.rel) →
      ∀ e ∈ ancestorsLoop db generations q visited,
        ancLabelOk e.generation e.relationship := by
  intro q visited
  induction q, visited using ancestorsLoop.induct db generations with
  | case1 visited =>
    intro _ e he
    rw [ancestorsLoop] at he
    exact absurd he (List.not_mem_nil e)
  | case2 item rest visited hcond ih =>
    intro hq
    rw [ancestorsLoop, dif_pos hcond]
    exact ih (fun x hx => hq x (List.mem_cons_of_mem item hx))
  | case3 item rest visited hcond hnone ih =>
    intro hq
    rw [ancestorsLoop, dif_neg hcond, hnone]
    exact ih (fun x hx => hq x (List.mem_cons_of_mem item hx))
  | case4 item rest visited hcond person hperson ih =>
    intro hq e he
    rw [ancestorsLoop, dif_neg hcond, hperson] at he
    rcases List.mem_cons.mp he with rfl | he
    · exact hq item (List.mem_cons_self item rest)
    · refine ih ?_ e he
      intro x hx
      rcases List.mem_append.mp hx with hx | hx
      · exact hq x (List.mem_cons_of_mem item hx)
      · have hx2 : x ∈ ancestorPushes db (insert item.handle visited) item.gen person := by
          by_cases hlt : item.gen < generations
          · rwa [dif_pos hlt] at hx
          · rw [dif_neg hlt] at hx
            exact absurd hx (List.not_mem_nil x)
        obtain ⟨hgen, hrel⟩ := ancestorPushes_labels db _ item.gen person x hx2
        rw [hgen]
        rcases hrel with hrel | hrel
        · rw [hrel]; exact fatherRel_labelOk item.gen
        · rw [hrel]; exact motherRel_labelOk item.gen

theorem descendantsLoop_labels (db : GrampsDb) (generations : Nat) :
    ∀ (q : List QItem) (visited : Finset String),
      (∀ x ∈ q, descLabelOk x.gen x.rel) →
      ∀ e ∈ descendantsLoop db generations q visited,
        descLabelOk e.generation e.relationship := by
  intro q visited
  induction q, visited using descendantsLoop.induct db generations with
  | case1 visited =>
    intro _ e he
    rw [descendantsLoop] at he
    exact absurd he (List.not_mem_nil e)
  | case2 item rest visited hcond ih =>
    intro hq
    rw [descendantsLoop, dif_pos hcond]
    exact ih (fun x hx => hq x (List.mem_cons_of_mem item hx))
  | case3 item rest visited hcond hnone ih =>
    intro hq
    rw [descendantsLoop, dif_neg hcond, hnone]
    exact ih (fun x hx => hq x (List.mem_cons_of_mem item hx))
  | case4 item rest visited hcond person hperson ih =>
    intro hq e he
    rw [descendantsLoop, dif_neg hcond, hperson] at he
    rcases List.mem_cons.mp he with rfl | he
    · exact hq item (List.mem_cons_self item rest)
    · refine ih ?_ e he
      intro x hx
      rcases List.mem_append.mp hx with hx | hx
      · exact hq x (List.mem_cons_of_mem item hx)
      · have hx2 : x ∈ descendantPushes db (insert item.handle visited) item.gen person := by
          by_cases hlt : item.gen < generations
          · rwa [dif_pos hlt] at hx
          · rw [dif_neg hlt] at hx
            exact absurd hx (List.not_mem_nil x)
        obtain ⟨hgen, hrel⟩ := descendantPushes_labels db _ item.gen person x hx2
        rw [hgen, hrel]
        exact childRel_labelOk item.gen

/-- **C5** (corrected).  Every relative the traversal records at
generation distance `d ≥ 3` carries the label `"{d}x Great-Grandfather"`
(resp. `"{d}x Great-Grandmother"`, `"{d}x Great-Grandchild"`) — the
count is the full distance `d`, not `d − 1` as claimed: the source labels
a relative pushed from generation `gen` with `"{gen+1}x …"`, and the
relative sits at distance `gen + 1`. -/
theorem C5_labels_amended (db : GrampsDb) (H : String) (gens : Nat) :
    (∀ e ∈ (grampsGetAncestors db H gens).1, 3 ≤ e.generation →
      e.relationship = s!"{e.generation}x Great-Grandfather" ∨
      e.relationship = s!"{e.generation}x Great-Grandmother") ∧
    (∀ e ∈ (grampsGetDescendants db H gens).1, 3 ≤ e.generation →
      e.relationship = s!"{e.generation}x Great-Grandchild") := by
  constructor
  · intro e he
    rw [grampsGetAncestors_entries] at he
    refine ancestorsLoop_labels db gens [⟨H, 0, "Self"⟩] ∅ ?_ e he
    intro x hx
    rw [List.mem_singleton] at hx
    subst hx
    intro h3
    exact absurd h3 (by simp)
  · intro e he
    rw [grampsGetDescendants_entries] at he
    refine descendantsLoop_labels db gens [⟨H, 0, "Self"⟩] ∅ ?_ e he
    intro x hx
    rw [List.mem_singleton] at hx
    subst hx
    intro h3
    exact absurd h3 (by simp)

/-- A four-generation father chain `P0 ← P1 ← P2 ← P3` used by the C5
counterexample and witness. -/
def chainDb : GrampsDb :=
  ⟨[("P0", ⟨"P0", "I0", none, some ["F0"]⟩),
    ("P1", ⟨"P1", "I1", none, some ["F1"]⟩),
    ("P2", ⟨"P2", "I2", none, some ["F2"]⟩),
    ("P3", ⟨"P3", "I3", none, none⟩)],
   [("F0", ⟨"F0", some "P1", none, none⟩),
    ("F1", ⟨"F1", some "P2", none, none⟩),
    ("F2", ⟨"F2", some "P3", none, none⟩)]⟩

/-- The full concrete run of the ancestor BFS on the chain. -/
theorem chainDb_eval :
    ancestorsLoop chainDb 3 [⟨"P0", 0, "Self"⟩] ∅
      = [⟨0, ⟨"P0", "I0", none, some ["F0"]⟩, "Self"⟩,
         ⟨1, ⟨"P1", "I1", none, some ["F1"]⟩, "Father"⟩,
         ⟨2, ⟨"P2", "I2", none, some ["F2"]⟩, "Grandfather"⟩,
         ⟨3, ⟨"P3", "I3", none, none⟩, "3x Great-Grandfather"⟩] := by
  simp +decide [ancestorsLoop, ancestorPushes, getPerson, getFamily, chainDb,
    fatherRel, motherRel]

/-- **C5, counterexample.**  On the four-generation father chain, the
relative at generation distance 3 is labelled `"3x Great-Grandfather"`,
not `"{3-1}x Great-Grandfather" = "2x Great-Grandfather"` as the claim
requires. -/
theorem C5_counterexample :
    (grampsGetAncestors chainDb "P0" 3).1.filter (fun e => e.generation = 3)
      = [⟨3, ⟨"P3", "I3", none, none⟩, "3x Great-Grandfather"⟩] ∧
    ("3x Great-Grandfather" : String) ≠ "2x Great-Grandfather" := by
  constructor
  · rw [grampsGetAncestors_entries, chainDb_eval]
    decide
  · decide

/-- Witness for C5 on the chain: the generation-3 entry is in the result
and its label matches the amended `"{d}x …"` form. -/
theorem C5_witness :
    (⟨3, ⟨"P3", "I3", none, none⟩, "3x Great-Grandfather"⟩ : LineageEntry)
        ∈ (grampsGetAncestors chainDb "P0" 3).1 ∧
    (("3x Great-Grandfather" : String) = "3x Great-Grandfather" ∨
      ("3x Great-Grandfather" : String) = "3x Great-Grandmother") := by
  have hmem : (⟨3, ⟨"P3", "I3", none, none⟩, "3x Great-Grandfather"⟩ : LineageEntry)
      ∈ (grampsGetAncestors chainDb "P0" 3).1 := by
    rw [grampsGetAncestors_entries, chainDb_eval]
    decide
  exact ⟨hmem, (C5_labels_amended chainDb "P0" 3).1 _ hmem (by decide)⟩

end GrampsWeb
